import Mathlib

/-!
# trivyops: the group scan of `pkg/scan.go` and the counter of `pkg/trivy.go`

A shallow embedding of the aggregation pipeline.

* Go strings are modelled by Lean strings (valid UTF-8 text; the byte `\n` and
  the byte `#` occur in UTF-8 text only as the characters themselves).
* A Go slice that may be `nil` is an `Option (List _)`: `none` is the nil slice,
  `some []` an allocated slice of length zero.
* The remote API (`git`), `archive/zip`, `encoding/json` and `regexp` are
  outside the repository; they are the fields of `Env`, answering each request
  as a function of its arguments.
* A run yields an `Exec`: a returned value, a Go panic, or exhausted fuel
  for the one unbounded loop (`getAllGroupProjects`). Every remote call is
  recorded, in order, in a trace of `Call`s. Log output is not modelled.
-/

set_option autoImplicit false

namespace TrivyOps

/-! ## Data model -/

/-- Go `error` values met in `scan.go`. -/
inductive Error where
  /-- The value `errors.New("no group id set")`. -/
  | noGroupId
  /-- The value `fmt.Errorf("no %s job result", s.JobName)`. -/
  | noJobResult (jobName : String)
  /-- The value `fmt.Errorf("didn't find %s in zip", s.ArtifactFileName)`. -/
  | notInZip (entryName : String)
  /-- The value `errors.New("no .trivyignore file found")`. -/
  | noTrivyIgnoreFile
  /-- An error value produced by a library or by the remote API -/
  | external (msg : String)
  deriving DecidableEq, Repr

/-- Run-time panics that `scan.go` can raise. -/
inductive Panic where
  /-- A field read through a nil pointer -/
  | nilPointerDereference
  /-- Raised by `regexp.MustCompile` on a pattern that does not parse. -/
  | regexpMustCompile (pattern : String)
  deriving DecidableEq, Repr

/-- Outcome of running a Go function. -/
inductive Exec (α : Type) where
  | returned (v : α)
  | panicked (p : Panic)
  | outOfFuel
  deriving DecidableEq, Repr

/-- Go slice that may be nil. -/
abbrev Slice (α : Type) := Option (List α)

namespace Slice

/-- Go `len`. -/
def len {α : Type} : Slice α → Nat
  | none => 0
  | some l => l.length

/-- Go `append(s, x)`. -/
def append {α : Type} : Slice α → α → Slice α
  | none, x => some [x]
  | some l, x => some (l ++ [x])

/-- Elements visited by `for _, x := range s`. -/
def elems {α : Type} : Slice α → List α
  | none => []
  | some l => l

end Slice

abbrev Bytes := List Nat

/-- The part of `*gitlab.Response` that `scan.go` reads. -/
structure Response where
  StatusCode : Int
  CurrentPage : Int
  TotalPages : Int
  deriving DecidableEq, Repr

/-- The part of `gitlab.Project` that `scan.go` reads. -/
structure Project where
  ID : Int
  Name : String
  NameWithNamespace : String
  DefaultBranch : String
  deriving DecidableEq, Repr

/-- The part of `gitlab.Job` that `scan.go` reads. -/
structure Job where
  Name : String
  Status : String
  deriving DecidableEq, Repr

/-- A `types.DetectedVulnerability`; only the number of records is consumed. -/
structure DetectedVulnerability where
  VulnerabilityID : String
  deriving DecidableEq, Repr

/-- A `report.Result`: one package entry of a report. -/
structure Result where
  Target : String
  Vulnerabilities : Slice DetectedVulnerability
  deriving DecidableEq, Repr

/-- The `trivy` struct of `trivy.go`. -/
structure trivy where
  ProjName : String
  State : String
  Vulnerabilities : Nat
  Ignore : Slice String
  ReportResult : Slice Result
  deriving DecidableEq, Repr

abbrev TrivyResults := List trivy

/-- The `scan` struct of `scan.go`. -/
structure scan where
  ID : String
  JobName : String
  ArtifactFileName : String
  Filter : String
  deriving DecidableEq, Repr

/-- Outcome of a remote call returning `(value, *Response, error)`. -/
inductive Fetch (α : Type) where
  /-- The case `err == nil`. -/
  | ok (v : α)
  /-- The case `err != nil`; `res` is `none` when no HTTP response was received. -/
  | failed (res : Option Response) (err : Error)

/-- What opening and reading one archive entry gives. -/
inductive ZipContent where
  | openFails (err : Error)
  | readFails (err : Error)
  | data (bt : Bytes)
  deriving DecidableEq, Repr

/-- A `*zip.File`. -/
structure ZipFile where
  Name : String
  content : ZipContent
  deriving DecidableEq, Repr

/-- A compiled `*regexp.Regexp`. -/
structure Regexp where
  FindAllString : String → Slice String

/-- The options `getAllGroupProjects` passes to the listing. -/
structure ListGroupProjectsOptions where
  PerPage : Int
  Page : Int
  Archived : Bool
  IncludeSubgroups : Bool
  deriving DecidableEq, Repr

/-- A remote call, as recorded in the trace. -/
inductive Call where
  | listGroupProjects (gid : String) (opt : ListGroupProjectsOptions)
  | listProjectJobs (pid : Int) (includeRetried : Bool)
  | downloadArtifactsFile (pid : Int) (ref : String) (job : String)
  | getRawFile (pid : Int) (fileName : String) (ref : String)
  deriving DecidableEq, Repr

/-- The collaborators outside the repository. -/
structure Env where
  ListGroupProjects : String → ListGroupProjectsOptions → Except Error (List Project × Response)
  ListProjectJobs : Int → Bool → Except Error (List Job)
  DownloadArtifactsFile : Int → String → String → Fetch Bytes
  GetRawFile : Int → String → String → Fetch String
  zipNewReader : Bytes → Except Error (List ZipFile)
  jsonUnmarshal : Bytes → Except Error (Slice Result)
  regexpCompile : String → Option Regexp

/-! ## `strings.Split` and `strings.HasPrefix` -/

/-- Scan for the separator `"\n"`: `cur` holds the current segment reversed. -/
def splitNewlineAux (cur : List Char) : List Char → List (List Char)
  | [] => [cur.reverse]
  | c :: cs =>
    if c = '\n' then cur.reverse :: splitNewlineAux [] cs
    else splitNewlineAux (c :: cur) cs

/-- Go `strings.Split(s, "\n")`. -/
def stringsSplitNewline (s : String) : List String :=
  (splitNewlineAux [] s.data).map String.mk

/-- Go `strings.HasPrefix(str, "#")`. -/
def hasPrefixHash (str : String) : Bool :=
  match str.data with
  | c :: _ => c == '#'
  | [] => false

/-! ## `getTrivyIgnore` (scan.go 191-207) -/

/-- The loop of lines 201-205 over the segments still to visit. -/
def getTrivyIgnore.loop : List String → Slice String → Slice String
  | [], ignores => ignores
  | str :: rest, ignores =>
    if !hasPrefixHash str then getTrivyIgnore.loop rest (Slice.append ignores str)
    else getTrivyIgnore.loop rest ignores

/-- Go `getTrivyIgnore`. -/
def getTrivyIgnore (_s : scan) (E : Env) (pid : Int) (ref : String) :
    Exec (Slice String × Option Error) × List Call :=
  let tr := [Call.getRawFile pid ".trivyignore" ref]
  match E.GetRawFile pid ".trivyignore" ref with
  | .failed res err =>
    match res with
    | none => (.panicked .nilPointerDereference, tr)
    | some r =>
      if r.StatusCode = 404 then (.returned (none, some .noTrivyIgnoreFile), tr)
      else (.returned (none, some err), tr)
  | .ok bt =>
    (.returned (getTrivyIgnore.loop (stringsSplitNewline bt) none, none), tr)

/-! ## `unzipFromReader` (scan.go 163-189) -/

/-- The loop of lines 170-187 over `unzip.File`. -/
def unzipFromReader.loop (s : scan) : List ZipFile → Except Error Bytes
  | [] => .error (.notInZip s.ArtifactFileName)
  | file :: rest =>
    if file.Name = s.ArtifactFileName then
      match file.content with
      | .openFails err => .error err
      | .readFails err => .error err
      | .data bt => .ok bt
    else unzipFromReader.loop s rest

/-- Go `unzipFromReader`; `rdr` is the content behind the `*bytes.Reader`. -/
def unzipFromReader (s : scan) (E : Env) (rdr : Bytes) : Except Error Bytes :=
  match E.zipNewReader rdr with
  | .error err => .error err
  | .ok files => unzipFromReader.loop s files

/-! ## `getTrivyResult` (scan.go 126-161) -/

/-- The three values `getTrivyResult` returns. -/
structure TrivyResultReturn where
  report : Slice Result
  state : String
  err : Option Error
  deriving DecidableEq, Repr

/-- The loop of lines 133-138, with `break` at the first job of the name. -/
def getTrivyResult.loop (s : scan) : List Job → String → String
  | [], state => state
  | job :: rest, state =>
    if job.Name = s.JobName then job.Status
    else getTrivyResult.loop s rest state

/-- Go `getTrivyResult`. -/
def getTrivyResult (s : scan) (E : Env) (pid : Int) (ref : String) :
    TrivyResultReturn × List Call :=
  let c1 := Call.listProjectJobs pid false
  match E.ListProjectJobs pid false with
  | .error err => (⟨none, "", some err⟩, [c1])
  | .ok jobs =>
    let state := getTrivyResult.loop s jobs ""
    let tr := [c1, Call.downloadArtifactsFile pid ref s.JobName]
    match E.DownloadArtifactsFile pid ref s.JobName with
    | .failed res err =>
      match res with
      | some r =>
        if r.StatusCode = 404 then (⟨none, state, some (.noJobResult s.JobName)⟩, tr)
        else (⟨none, state, some err⟩, tr)
      | none => (⟨none, state, some err⟩, tr)
    | .ok rdr =>
      match unzipFromReader s E rdr with
      | .error err => (⟨none, state, some err⟩, tr)
      | .ok bt =>
        match E.jsonUnmarshal bt with
        | .error err => (⟨none, state, some err⟩, tr)
        | .ok jsonResult => (⟨jsonResult, state, none⟩, tr)

/-! ## `getAllGroupProjects` (scan.go 100-124) -/

/-- The `for` loop of lines 111-122. The options are those built before the
loop; the body does not assign to them. One unit of fuel is one iteration. -/
def getAllGroupProjects.loop (s : scan) (E : Env) (options : ListGroupProjectsOptions) :
    Nat → List Project → List Call → Exec (List Project × Option Error) × List Call
  | 0, _, tr => (.outOfFuel, tr)
  | fuel + 1, allProjs, tr =>
    let tr := tr ++ [Call.listGroupProjects s.ID options]
    match E.ListGroupProjects s.ID options with
    | .error err => (.returned (allProjs, some err), tr)
    | .ok (projs, resp) =>
      let allProjs := allProjs ++ projs
      if resp.CurrentPage ≥ resp.TotalPages then (.returned (allProjs, none), tr)
      else getAllGroupProjects.loop s E options fuel allProjs tr

/-- Go `getAllGroupProjects`. -/
def getAllGroupProjects (s : scan) (E : Env) (fuel : Nat) :
    Exec (List Project × Option Error) × List Call :=
  getAllGroupProjects.loop s E ⟨100, 1, false, true⟩ fuel [] []

/-! ## The counter (trivy.go 20-28) -/

/-- The inner loop of lines 23-25: `countVulnies += len(pkgResult.Vulnerabilities)`.
The Go `int` cannot wrap here: the total is bounded by the records held in memory. -/
def Check.count : List Result → Nat → Nat
  | [], countVulnies => countVulnies
  | pkgResult :: rest, countVulnies =>
    Check.count rest (countVulnies + Slice.len pkgResult.Vulnerabilities)

/-- The outer loop of lines 21-27; each result is updated in place. -/
def Check.loop : List trivy → List trivy
  | [] => []
  | result :: rest =>
    { result with Vulnerabilities := Check.count (Slice.elems result.ReportResult) 0 }
      :: Check.loop rest

/-- Go `(*TrivyResults).Check`: the list after the call. -/
def TrivyResults.Check (t : TrivyResults) : TrivyResults :=
  Check.loop t

/-- Modelled from the spec: the per-result counter `(*trivy).check`, which
`ScanGroup` calls at line 89 and which is declared in no source file at hand.
Spec 4.5 step 4 and 4.6: it runs the counter on the result's report (an absent
report counts 0) and stores the count, which line 90 reads back as
`Vulnerabilities.Count`. The count is the loop body of `TrivyResults.Check`. -/
def trivy.check (projResult : trivy) : trivy :=
  { projResult with Vulnerabilities := Check.count (Slice.elems projResult.ReportResult) 0 }

/-! ## `ScanGroup` (scan.go 58-98) -/

/-- The condition of line 74; `re` is nil when no pattern was compiled. -/
def ScanGroup.passes (s : scan) (re : Option Regexp) (proj : Project) : Exec Bool :=
  if s.Filter = "" then .returned true
  else
    match re with
    | none => .panicked .nilPointerDereference
    | some r => .returned (decide (Slice.len (r.FindAllString proj.NameWithNamespace) > 0))

/-- Lines 76-89: the result built for one project, and the calls made for it. -/
def ScanGroup.project (s : scan) (E : Env) (proj : Project) : Exec trivy × List Call :=
  let r := getTrivyResult s E proj.ID proj.DefaultBranch
  let i := getTrivyIgnore s E proj.ID proj.DefaultBranch
  match i.1 with
  | .returned (ignore, _) =>
    (.returned (trivy.check
      { ProjName := proj.Name, State := r.1.state, Vulnerabilities := 0,
        Ignore := ignore, ReportResult := r.1.report }), r.2 ++ i.2)
  | .panicked p => (.panicked p, r.2 ++ i.2)
  | .outOfFuel => (.outOfFuel, r.2 ++ i.2)

/-- The test of line 90. -/
def ScanGroup.keeps (projResult : trivy) : Bool :=
  projResult.Ignore.isSome || (projResult.ReportResult.isSome && decide (projResult.Vulnerabilities > 0))

/-- The loop of lines 73-96 over the projects still to visit. -/
def ScanGroup.loop (s : scan) (E : Env) (re : Option Regexp) :
    List Project → TrivyResults → List Call → Exec (Except Error TrivyResults) × List Call
  | [], results, tr => (.returned (.ok results), tr)
  | proj :: rest, results, tr =>
    match ScanGroup.passes s re proj with
    | .returned true =>
      match ScanGroup.project s E proj with
      | (.returned projResult, tr1) =>
        if ScanGroup.keeps projResult then
          ScanGroup.loop s E re rest (results ++ [projResult]) (tr ++ tr1)
        else ScanGroup.loop s E re rest results (tr ++ tr1)
      | (.panicked p, tr1) => (.panicked p, tr ++ tr1)
      | (.outOfFuel, tr1) => (.outOfFuel, tr ++ tr1)
    | .returned false => ScanGroup.loop s E re rest results tr
    | .panicked p => (.panicked p, tr)
    | .outOfFuel => (.outOfFuel, tr)

/-- Go `ScanGroup`: `returned (.error e)` is `return nil, e`, and
`returned (.ok results)` is `return results, nil`. -/
def ScanGroup (s : scan) (E : Env) (fuel : Nat) :
    Exec (Except Error TrivyResults) × List Call :=
  if s.ID = "" then (.returned (.error .noGroupId), [])
  else
    match getAllGroupProjects s E fuel with
    | (.returned (_, some err), tr) => (.returned (.error err), tr)
    | (.returned (projs, none), tr) =>
      if s.Filter ≠ "" then
        match E.regexpCompile s.Filter with
        | none => (.panicked (.regexpMustCompile s.Filter), tr)
        | some re => ScanGroup.loop s E (some re) projs [] tr
      else ScanGroup.loop s E none projs [] tr
    | (.panicked p, tr) => (.panicked p, tr)
    | (.outOfFuel, tr) => (.outOfFuel, tr)

/-! ## Specification-side vocabulary and test doubles -/

/-- The sum, over the entries of a report, of the number of vulnerability
records attached to each entry (0 for an absent report). -/
def vulnerabilityCount (report : Slice Result) : Nat :=
  ((Slice.elems report).map (fun entry => Slice.len entry.Vulnerabilities)).sum

/-- The content of a text file written as lines, each terminated by a newline. -/
def terminatedLines : List String → String
  | [] => ""
  | line :: rest => line ++ "\n" ++ terminatedLines rest

/-- An opened archive given as an ordered list of (entry name, entry bytes):
every entry opens and reads. -/
def archiveOf (entries : List (String × Bytes)) : List ZipFile :=
  entries.map (fun e => { Name := e.1, content := .data e.2 })

/-- Characters that stand for themselves in a pattern of the stand-in engine. -/
def literalChar (c : Char) : Bool :=
  c.isAlphanum || c == '-' || c == '_' || c == '/' || c == ' '

/-- Stand-in for `regexp.Compile` on the fragment `^literal`, used to evaluate
examples: such a pattern compiles and matches exactly the strings that start
with the literal (one match, the literal). Every other pattern, among them the
unbalanced `(`, is reported as not compiling. -/
def anchoredLiteral (pattern : String) : Option Regexp :=
  match pattern.data with
  | '^' :: lit =>
    if lit.all literalChar then
      some { FindAllString := fun str =>
        if lit.isPrefixOf str.data then some [String.mk lit] else none }
    else none
  | _ => none

/-- A remote with no project, no job, no artifact and no ignore file. -/
def emptyEnv : Env where
  ListGroupProjects := fun _ _ => .ok ([], ⟨200, 1, 1⟩)
  ListProjectJobs := fun _ _ => .ok []
  DownloadArtifactsFile := fun _ _ _ => .failed (some ⟨404, 0, 0⟩) (.external "404 Not Found")
  GetRawFile := fun _ _ _ => .failed (some ⟨404, 0, 0⟩) (.external "404 Not Found")
  zipNewReader := fun _ => .error (.external "zip: not a valid zip file")
  jsonUnmarshal := fun _ => .error (.external "unexpected end of JSON input")
  regexpCompile := anchoredLiteral

/-- The scanner configuration used in the examples. -/
def exampleScan : scan :=
  { ID := "group", JobName := "trivy", ArtifactFileName := "b.json", Filter := "" }

/-- A remote whose every project has the ignore file `content`. -/
def ignoreFileEnv (content : String) : Env :=
  { emptyEnv with GetRawFile := fun _ _ _ => .ok content }

/-- A remote whose every artifact opens as the archive `files`. -/
def archiveEnv (files : List ZipFile) : Env :=
  { emptyEnv with
    DownloadArtifactsFile := fun _ _ _ => .ok []
    zipNewReader := fun _ => .ok files }

/-- A remote whose every project has the job list `jobs`. -/
def jobsEnv (jobs : List Job) : Env :=
  { emptyEnv with ListProjectJobs := fun _ _ => .ok jobs }

/-- A remote whose project listing has the given pages: a request for page `k`
(counted from 1) is answered with the projects of that page, current page `k`
and total pages the number of pages. -/
def pagedEnv (pages : List (List Project)) : Env :=
  { emptyEnv with
    ListGroupProjects := fun _ opt =>
      if opt.Page ≥ 1 then
        match pages.get? (opt.Page - 1).toNat with
        | some projs => .ok (projs, ⟨200, opt.Page, pages.length⟩)
        | none => .ok ([], ⟨200, opt.Page, pages.length⟩)
      else .error (.external "400 Bad Request") }

/-- The request `getAllGroupProjects` builds before its loop. -/
def firstPageRequest (s : scan) : Call :=
  .listGroupProjects s.ID ⟨100, 1, false, true⟩

/-- A project of the examples. -/
def apiProject : Project :=
  { ID := 1, Name := "api", NameWithNamespace := "group / api", DefaultBranch := "main" }

/-- A remote with the one project `apiProject`, whose ignore-file fetch fails
before any HTTP response arrives (a transport error). -/
def ignoreFetchNoResponseEnv : Env :=
  { emptyEnv with
    ListGroupProjects := fun _ _ => .ok ([apiProject], ⟨200, 1, 1⟩)
    GetRawFile := fun _ _ _ => .failed none (.external "dial tcp: connection refused") }

/-- The pattern held in `re` after lines 68-71: nil when the filter is empty. -/
def compiledFilter (s : scan) (E : Env) : Option Regexp :=
  if s.Filter ≠ "" then E.regexpCompile s.Filter else none

/-- The project passes the name filter: no pattern is set, or the pattern has a
match in the namespaced display name. -/
def passesFilter (s : scan) (re : Option Regexp) (proj : Project) : Bool :=
  decide (ScanGroup.passes s re proj = .returned true)

/-- The result `ScanGroup` builds for a project, when building it completes. -/
def projectResult (s : scan) (E : Env) (proj : Project) : Option trivy :=
  match (ScanGroup.project s E proj).1 with
  | .returned projResult => some projResult
  | _ => none

/-- The results of the projects that pass the name filter, in listing order. -/
def processedResults (s : scan) (E : Env) (projs : List Project) : List trivy :=
  (projs.filter (passesFilter s (compiledFilter s E))).filterMap (projectResult s E)

/-- The inclusion rule of the specification: a non-empty ignore list, or a
report together with a positive vulnerability count. -/
def specIncluded (r : trivy) : Bool :=
  decide (0 < Slice.len r.Ignore)
    || (r.ReportResult.isSome && decide (0 < vulnerabilityCount r.ReportResult))

/-- The remote calls `ScanGroup` can make for one project. -/
def perProjectCalls (s : scan) (proj : Project) : List Call :=
  [.listProjectJobs proj.ID false,
   .downloadArtifactsFile proj.ID proj.DefaultBranch s.JobName,
   .getRawFile proj.ID ".trivyignore" proj.DefaultBranch]

/-- The project id a per-project call is made for. -/
def Call.pid : Call → Option Int
  | .listGroupProjects _ _ => none
  | .listProjectJobs pid _ => some pid
  | .downloadArtifactsFile pid _ _ => some pid
  | .getRawFile pid _ _ => some pid

/-- The pattern has a match in the project's namespaced display name. -/
def nameMatches (re : Regexp) (proj : Project) : Bool :=
  decide (0 < Slice.len (re.FindAllString proj.NameWithNamespace))

/-- Four projects: one with findings, one with a clean report, one with only an
ignore file, one with neither report nor ignore file. -/
def inclusionProjects : List Project :=
  [⟨1, "flagged", "group / flagged", "main"⟩, ⟨2, "clean", "group / clean", "main"⟩,
   ⟨3, "ignoring", "group / ignoring", "main"⟩, ⟨4, "bare", "group / bare", "main"⟩]

/-- A remote serving `inclusionProjects`: projects 1 and 2 have an artifact
(two findings, no finding), project 3 has an ignore file, project 4 has nothing. -/
def inclusionEnv : Env :=
  { emptyEnv with
    ListGroupProjects := fun _ _ => .ok (inclusionProjects, ⟨200, 1, 1⟩)
    ListProjectJobs := fun _ _ => .ok [⟨"trivy", "success"⟩]
    DownloadArtifactsFile := fun pid _ _ =>
      if pid = 1 ∨ pid = 2 then .ok [pid.toNat]
      else .failed (some ⟨404, 0, 0⟩) (.external "404 Not Found")
    zipNewReader := fun bt => .ok [⟨"b.json", .data bt⟩]
    jsonUnmarshal := fun bt =>
      if bt = [1] then .ok (some [⟨"alpine", some [⟨"CVE-2020-1"⟩, ⟨"CVE-2020-2"⟩]⟩])
      else .ok (some [⟨"alpine", none⟩])
    GetRawFile := fun pid _ _ =>
      if pid = 3 then .ok "CVE-2019-9\n"
      else .failed (some ⟨404, 0, 0⟩) (.external "404 Not Found") }

/-- The two projects of the name-filter example. -/
def billingProjects : List Project :=
  [⟨1, "billing-api", "billing-api", "main"⟩, ⟨2, "core-service", "core-service", "main"⟩]

/-- A remote serving `billingProjects`, each with the same one-line ignore file. -/
def billingEnv : Env :=
  { emptyEnv with
    ListGroupProjects := fun _ _ => .ok (billingProjects, ⟨200, 1, 1⟩)
    GetRawFile := fun _ _ _ => .ok "CVE-2019-9" }

/-- The scanner configuration of the name-filter example. -/
def billingScan : scan :=
  { exampleScan with Filter := "^billing-" }

/-- The pattern `^billing-`, compiled by the stand-in engine. -/
def billingRegexp : Regexp :=
  (anchoredLiteral "^billing-").getD { FindAllString := fun _ => none }

/-! ## Lemmas on the ignore-file parser -/

theorem splitNewlineAux_ne_nil (cur cs : List Char) : splitNewlineAux cur cs ≠ [] := by
  induction cs generalizing cur with
  | nil => simp [splitNewlineAux]
  | cons c cs ih =>
    unfold splitNewlineAux
    split
    · simp
    · exact ih _

theorem splitNewlineAux_line (line rest cur : List Char) (h : '\n' ∉ line) :
    splitNewlineAux cur (line ++ '\n' :: rest)
      = (cur.reverse ++ line) :: splitNewlineAux [] rest := by
  induction line generalizing cur with
  | nil => simp [splitNewlineAux]
  | cons c line ih =>
    have hc : c ≠ '\n' := fun e => h (by simp [e])
    have hl : '\n' ∉ line := fun e => h (by simp [e])
    simp [splitNewlineAux, hc, ih _ hl]

theorem splitNewlineAux_getLast (cs cur : List Char) (h : cs.getLast? = some '\n') :
    (splitNewlineAux cur cs).getLast? = some [] := by
  induction cs generalizing cur with
  | nil => simp at h
  | cons c cs ih =>
    cases cs with
    | nil =>
      simp at h
      simp [splitNewlineAux, h]
    | cons d ds =>
      have h2 : (d :: ds).getLast? = some '\n' := by
        simpa [List.getLast?_cons_cons] using h
      unfold splitNewlineAux
      split
      · have hne := splitNewlineAux_ne_nil [] (d :: ds)
        have ih3 := ih [] h2
        cases hs : splitNewlineAux [] (d :: ds) with
        | nil => exact absurd hs hne
        | cons x xs =>
          rw [hs] at ih3
          simpa [List.getLast?_cons_cons] using ih3
      · exact ih _ h2

theorem stringsSplitNewline_terminatedLines (lines : List String)
    (h : ∀ line ∈ lines, '\n' ∉ line.data) :
    stringsSplitNewline (terminatedLines lines) = lines ++ [""] := by
  induction lines with
  | nil => rfl
  | cons line rest ih =>
    have h1 : '\n' ∉ line.data := h line (by simp)
    have h2 : ∀ l ∈ rest, '\n' ∉ l.data := fun l hl => h l (by simp [hl])
    have ih2 := ih h2
    unfold stringsSplitNewline at ih2 ⊢
    simp only [terminatedLines, String.data_append]
    rw [List.append_assoc, List.singleton_append, splitNewlineAux_line _ _ _ h1]
    simp [ih2]

theorem getTrivyIgnore_loop_some (segs : List String) (l : List String) :
    getTrivyIgnore.loop segs (some l) = some (l ++ segs.filter (fun x => !hasPrefixHash x)) := by
  induction segs generalizing l with
  | nil => simp [getTrivyIgnore.loop]
  | cons x xs ih =>
    unfold getTrivyIgnore.loop
    by_cases hx : hasPrefixHash x = true
    · simp [hx, ih]
    · simp [hx, ih, Slice.append]

theorem getTrivyIgnore_loop_none (segs : List String) :
    getTrivyIgnore.loop segs none =
      if segs.filter (fun x => !hasPrefixHash x) = [] then none
      else some (segs.filter (fun x => !hasPrefixHash x)) := by
  induction segs with
  | nil => simp [getTrivyIgnore.loop]
  | cons x xs ih =>
    unfold getTrivyIgnore.loop
    by_cases hx : hasPrefixHash x = true
    · simp [hx, ih]
    · simp [hx, Slice.append, getTrivyIgnore_loop_some]

theorem filter_getLast_of_getLast {α : Type} (p : α → Bool) (l : List α) (a : α)
    (h : l.getLast? = some a) (ha : p a = true) : (l.filter p).getLast? = some a := by
  obtain ⟨init, rfl⟩ : ∃ init, l = init ++ [a] := by
    rcases List.eq_nil_or_concat l with hl | ⟨init, b, hl⟩
    · simp [hl] at h
    · refine ⟨init, ?_⟩
      subst hl
      simp at h
      simp [h]
  simp [List.filter_append, ha]

theorem stringsSplitNewline_getLast (content : String)
    (h : content = "" ∨ content.data.getLast? = some '\n') :
    (stringsSplitNewline content).getLast? = some "" := by
  unfold stringsSplitNewline
  rcases h with h | h
  · subst h
    rfl
  · rw [List.getLast?_map, splitNewlineAux_getLast _ _ h]
    rfl

/-! ## Lemmas on the loops of the unpacker, the retriever and the counter -/

theorem unzipFromReader_loop_archiveOf (s : scan) (entries : List (String × Bytes)) :
    unzipFromReader.loop s (archiveOf entries)
      = match entries.find? (fun e => decide (e.1 = s.ArtifactFileName)) with
        | some e => .ok e.2
        | none => .error (.notInZip s.ArtifactFileName) := by
  induction entries with
  | nil => rfl
  | cons e rest ih =>
    by_cases he : e.1 = s.ArtifactFileName
    · simp [archiveOf, unzipFromReader.loop, he]
    · have ih2 : unzipFromReader.loop s (List.map
          (fun e => ({ Name := e.1, content := .data e.2 } : ZipFile)) rest) = _ := ih
      simp [archiveOf, unzipFromReader.loop, he, ih2]

theorem getTrivyResult_loop_find (s : scan) (jobs : List Job) (state : String) :
    getTrivyResult.loop s jobs state
      = match jobs.find? (fun job => decide (job.Name = s.JobName)) with
        | some job => job.Status
        | none => state := by
  induction jobs with
  | nil => rfl
  | cons job rest ih =>
    by_cases hj : job.Name = s.JobName
    · simp [getTrivyResult.loop, hj]
    · simp [getTrivyResult.loop, hj, ih]

theorem getTrivyResult_returns_loop_state (s : scan) (E : Env) (pid : Int) (ref : String)
    (jobs : List Job) (hjobs : E.ListProjectJobs pid false = .ok jobs) :
    (getTrivyResult s E pid ref).1.state = getTrivyResult.loop s jobs "" := by
  unfold getTrivyResult
  simp only [hjobs]
  cases E.DownloadArtifactsFile pid ref s.JobName with
  | failed res err =>
    cases res with
    | none => rfl
    | some r =>
      by_cases h404 : r.StatusCode = 404
      · simp [h404]
      · simp [h404]
  | ok rdr =>
    simp only
    cases unzipFromReader s E rdr with
    | error err => rfl
    | ok bt =>
      simp only
      cases E.jsonUnmarshal bt with
      | error err => rfl
      | ok jsonResult => rfl

theorem Check_count_eq (entries : List Result) (c : Nat) :
    Check.count entries c
      = c + (entries.map (fun entry => Slice.len entry.Vulnerabilities)).sum := by
  induction entries generalizing c with
  | nil => simp [Check.count]
  | cons e rest ih => simp [Check.count, ih, Nat.add_assoc]

theorem Check_count_zero (report : Slice Result) :
    Check.count (Slice.elems report) 0 = vulnerabilityCount report := by
  simp [Check_count_eq, vulnerabilityCount]

theorem Check_loop_append (pre post : List trivy) :
    Check.loop (pre ++ post) = Check.loop pre ++ Check.loop post := by
  induction pre with
  | nil => rfl
  | cons r rest ih => simp [Check.loop, ih]

/-! ## The ignore-file parser: claims C7 and C10 -/

/-- C7, counterexample. The content `"# comment\nfoo\n\nbar\n"` is the four lines
`# comment`, `foo`, (blank) and `bar`, each terminated by a newline, and on a
successful fetch of it `getTrivyIgnore` returns `["foo", "", "bar", ""]`: the
three lines that are not comments and one further empty token, not
`["foo", "", "bar"]`. -/
theorem getTrivyIgnore_example_trailing_token :
    terminatedLines ["# comment", "foo", "", "bar"] = "# comment\nfoo\n\nbar\n"
    ∧ (getTrivyIgnore exampleScan (ignoreFileEnv "# comment\nfoo\n\nbar\n") 1 "main").1
        = .returned (some ["foo", "", "bar", ""], none)
    ∧ (getTrivyIgnore exampleScan (ignoreFileEnv "# comment\nfoo\n\nbar\n") 1 "main").1
        ≠ .returned (some ["foo", "", "bar"], none) := by
  refine ⟨by decide, by decide, by decide⟩

/-- C7, amended. On a successful fetch of an ignore file whose content is a
sequence of lines each terminated by a newline, `getTrivyIgnore` returns, with
no error, the lines that do not begin with `#`, in original order and with blank
lines retained, followed by one empty string (the segment after the last
newline). -/
theorem getTrivyIgnore_terminatedLines (s : scan) (E : Env) (pid : Int) (ref : String)
    (lines : List String)
    (hfetch : E.GetRawFile pid ".trivyignore" ref = .ok (terminatedLines lines))
    (hlines : ∀ line ∈ lines, '\n' ∉ line.data) :
    (getTrivyIgnore s E pid ref).1
      = .returned (some (lines.filter (fun line => !hasPrefixHash line) ++ [""]), none) := by
  unfold getTrivyIgnore
  simp only [hfetch]
  rw [stringsSplitNewline_terminatedLines lines hlines, getTrivyIgnore_loop_none]
  have e : hasPrefixHash "" = false := rfl
  simp [List.filter_append, e]

/-- C7, amended, at the four lines of the example: the result is
`["foo", "", "bar", ""]`. -/
theorem getTrivyIgnore_terminatedLines_witness :
    (getTrivyIgnore exampleScan
        (ignoreFileEnv (terminatedLines ["# comment", "foo", "", "bar"])) 1 "main").1
      = .returned (some (["# comment", "foo", "", "bar"].filter
          (fun line => !hasPrefixHash line) ++ [""]), none) :=
  getTrivyIgnore_terminatedLines exampleScan
    (ignoreFileEnv (terminatedLines ["# comment", "foo", "", "bar"])) 1 "main"
    ["# comment", "foo", "", "bar"] rfl (by decide)

/-- C10. On every successful fetch `getTrivyIgnore` returns, with no error, a
list that is nil exactly when every newline-separated segment of the content
begins with `#`; it is never an allocated empty list, so the list is non-nil
exactly when its length is positive; and a content that is empty or ends with a
newline yields a list whose last element is the empty string. -/
theorem getTrivyIgnore_nil_iff (s : scan) (E : Env) (pid : Int) (ref : String)
    (content : String) (hfetch : E.GetRawFile pid ".trivyignore" ref = .ok content) :
    ∃ ignores : Slice String,
      (getTrivyIgnore s E pid ref).1 = .returned (ignores, none)
      ∧ (ignores = none ↔ ∀ seg ∈ stringsSplitNewline content, hasPrefixHash seg = true)
      ∧ (ignores ≠ none → 0 < Slice.len ignores)
      ∧ ignores ≠ some []
      ∧ (ignores.isSome = true ↔ 0 < Slice.len ignores)
      ∧ ((content = "" ∨ content.data.getLast? = some '\n') →
          ∃ l, ignores = some l ∧ l ≠ [] ∧ l.getLast? = some "") := by
  refine ⟨getTrivyIgnore.loop (stringsSplitNewline content) none, ?_, ?_, ?_, ?_, ?_, ?_⟩
  · unfold getTrivyIgnore
    simp only [hfetch]
  all_goals rw [getTrivyIgnore_loop_none]
  · by_cases hf : (stringsSplitNewline content).filter (fun x => !hasPrefixHash x) = []
    · simp only [hf, if_true, true_iff]
      intro seg hseg
      have := List.filter_eq_nil_iff.mp hf seg hseg
      simpa using this
    · simp only [hf, if_false]
      constructor
      · intro h
        cases h
      · intro h
        exfalso
        apply hf
        apply List.filter_eq_nil_iff.mpr
        intro seg hseg
        simp [h seg hseg]
  · by_cases hf : (stringsSplitNewline content).filter (fun x => !hasPrefixHash x) = []
    · simp [hf]
    · simp only [hf, if_false, Slice.len]
      intro _
      exact List.length_pos.mpr hf
  · by_cases hf : (stringsSplitNewline content).filter (fun x => !hasPrefixHash x) = []
    · simp [hf]
    · simp only [hf, if_false]
      intro h
      injection h with h
      exact hf h
  · by_cases hf : (stringsSplitNewline content).filter (fun x => !hasPrefixHash x) = []
    · simp [hf, Slice.len]
    · simp only [hf, if_false, Slice.len, Option.isSome_some, true_iff]
      exact List.length_pos.mpr hf
  · intro hc
    have hlast := filter_getLast_of_getLast (fun x => !hasPrefixHash x) _ ""
      (stringsSplitNewline_getLast content hc) rfl
    have hf : (stringsSplitNewline content).filter (fun x => !hasPrefixHash x) ≠ [] := by
      intro h
      rw [h] at hlast
      simp at hlast
    simp only [hf, if_false]
    exact ⟨_, rfl, hf, hlast⟩

/-- C10 at a file holding one comment line: the list is `[""]`. -/
theorem getTrivyIgnore_nil_iff_witness :
    ∃ ignores : Slice String,
      (getTrivyIgnore exampleScan (ignoreFileEnv "# only a comment\n") 1 "main").1
        = .returned (ignores, none)
      ∧ (ignores = none ↔
          ∀ seg ∈ stringsSplitNewline "# only a comment\n", hasPrefixHash seg = true)
      ∧ (ignores ≠ none → 0 < Slice.len ignores)
      ∧ ignores ≠ some []
      ∧ (ignores.isSome = true ↔ 0 < Slice.len ignores)
      ∧ ((("# only a comment\n" : String) = ""
            ∨ ("# only a comment\n" : String).data.getLast? = some '\n') →
          ∃ l, ignores = some l ∧ l ≠ [] ∧ l.getLast? = some "") :=
  getTrivyIgnore_nil_iff exampleScan (ignoreFileEnv "# only a comment\n") 1 "main"
    "# only a comment\n" rfl

/-! ## The unpacker: claim C8 -/

/-- C8. When the archive opens as the ordered list `entries` of (entry name,
entry bytes), `unzipFromReader` returns the exact bytes of the first entry whose
name equals the configured name, and the not-found error naming the configured
entry when there is none; it returns that error if and only if no entry has the
configured name. -/
theorem unzipFromReader_first_match (s : scan) (E : Env) (rdr : Bytes)
    (entries : List (String × Bytes))
    (hopen : E.zipNewReader rdr = .ok (archiveOf entries)) :
    unzipFromReader s E rdr
        = (match entries.find? (fun e => decide (e.1 = s.ArtifactFileName)) with
          | some e => .ok e.2
          | none => .error (.notInZip s.ArtifactFileName))
    ∧ (unzipFromReader s E rdr = .error (.notInZip s.ArtifactFileName)
        ↔ ∀ e ∈ entries, e.1 ≠ s.ArtifactFileName) := by
  have h1 : unzipFromReader s E rdr = unzipFromReader.loop s (archiveOf entries) := by
    unfold unzipFromReader
    simp only [hopen]
  rw [h1, unzipFromReader_loop_archiveOf]
  refine ⟨rfl, ?_⟩
  cases hfind : entries.find? (fun e => decide (e.1 = s.ArtifactFileName)) with
  | none =>
    simp only [true_iff]
    intro e he
    have := List.find?_eq_none.mp hfind e he
    simpa using this
  | some e =>
    constructor
    · intro h
      cases h
    · intro h
      have hmem := List.mem_of_find?_eq_some hfind
      have hp := List.find?_some hfind
      exact absurd (by simpa using hp) (h e hmem)

/-- C8 at the archive with entries `a.json` and `b.json`: requesting `b.json`
returns its bytes, requesting `c.json` fails with the not-found error. -/
theorem unzipFromReader_first_match_witness :
    (unzipFromReader exampleScan
        (archiveEnv (archiveOf [("a.json", [1, 2]), ("b.json", [3, 4, 5])])) []
          = .ok [3, 4, 5]
      ∧ (unzipFromReader exampleScan
          (archiveEnv (archiveOf [("a.json", [1, 2]), ("b.json", [3, 4, 5])])) []
            = .error (.notInZip "b.json")
          ↔ ∀ e ∈ [("a.json", ([1, 2] : Bytes)), ("b.json", [3, 4, 5])], e.1 ≠ "b.json"))
    ∧ unzipFromReader { exampleScan with ArtifactFileName := "c.json" }
        (archiveEnv (archiveOf [("a.json", [1, 2]), ("b.json", [3, 4, 5])])) []
          = .error (.notInZip "c.json") :=
  ⟨unzipFromReader_first_match exampleScan
      (archiveEnv (archiveOf [("a.json", [1, 2]), ("b.json", [3, 4, 5])])) []
      [("a.json", [1, 2]), ("b.json", [3, 4, 5])] rfl,
   (unzipFromReader_first_match { exampleScan with ArtifactFileName := "c.json" }
      (archiveEnv (archiveOf [("a.json", [1, 2]), ("b.json", [3, 4, 5])])) []
      [("a.json", [1, 2]), ("b.json", [3, 4, 5])] rfl).1⟩

/-! ## The retriever: claim C6 -/

/-- C6. After a successful job listing, whatever the download, the unzip
and the parse give, the status `getTrivyResult` returns is the status of the
first listed job whose name equals the configured job name, and the empty string
when no job has that name; two remotes that list the same jobs give the same
status. -/
theorem getTrivyResult_state (s : scan) (E : Env) (pid : Int) (ref : String)
    (jobs : List Job) (hjobs : E.ListProjectJobs pid false = .ok jobs) :
    (getTrivyResult s E pid ref).1.state
        = (match jobs.find? (fun job => decide (job.Name = s.JobName)) with
          | some job => job.Status
          | none => "")
    ∧ ∀ E2 : Env, E2.ListProjectJobs pid false = .ok jobs →
        (getTrivyResult s E2 pid ref).1.state = (getTrivyResult s E pid ref).1.state := by
  refine ⟨?_, fun E2 h2 => ?_⟩
  · rw [getTrivyResult_returns_loop_state s E pid ref jobs hjobs, getTrivyResult_loop_find]
  · rw [getTrivyResult_returns_loop_state s E pid ref jobs hjobs,
      getTrivyResult_returns_loop_state s E2 pid ref jobs h2]

/-- C6 at a listing with two runs of the job: the first one's status is
returned although the artifact download answers 404. -/
theorem getTrivyResult_state_witness :
    (getTrivyResult exampleScan
        (jobsEnv [⟨"build", "success"⟩, ⟨"trivy", "failed"⟩, ⟨"trivy", "success"⟩])
        7 "main").1.state
        = (match [(⟨"build", "success"⟩ : Job), ⟨"trivy", "failed"⟩, ⟨"trivy", "success"⟩].find?
              (fun job => decide (job.Name = exampleScan.JobName)) with
          | some job => job.Status
          | none => "")
    ∧ ∀ E2 : Env, E2.ListProjectJobs 7 false
          = .ok [⟨"build", "success"⟩, ⟨"trivy", "failed"⟩, ⟨"trivy", "success"⟩] →
        (getTrivyResult exampleScan E2 7 "main").1.state
          = (getTrivyResult exampleScan
              (jobsEnv [⟨"build", "success"⟩, ⟨"trivy", "failed"⟩, ⟨"trivy", "success"⟩])
              7 "main").1.state :=
  getTrivyResult_state exampleScan
    (jobsEnv [⟨"build", "success"⟩, ⟨"trivy", "failed"⟩, ⟨"trivy", "success"⟩]) 7 "main"
    [⟨"build", "success"⟩, ⟨"trivy", "failed"⟩, ⟨"trivy", "success"⟩] rfl

/-! ## The counter: claim C9 -/

/-- C9. After `TrivyResults.Check` every result keeps its other fields and its
`Vulnerabilities` field is the sum, over the entries of its own report, of the
number of vulnerability records of the entry: 0 for a nil or empty report,
whatever the field held before and whatever the other results of the list are. -/
theorem Check_sets_count (t : TrivyResults) :
    TrivyResults.Check t
        = t.map (fun result =>
            { result with Vulnerabilities := vulnerabilityCount result.ReportResult })
    ∧ (∀ (pre post : TrivyResults) (result : trivy) (prior : Nat),
        TrivyResults.Check (pre ++ { result with Vulnerabilities := prior } :: post)
          = TrivyResults.Check pre
            ++ { result with Vulnerabilities := vulnerabilityCount result.ReportResult }
            :: TrivyResults.Check post)
    ∧ vulnerabilityCount none = 0
    ∧ vulnerabilityCount (some []) = 0 := by
  refine ⟨?_, ?_, rfl, rfl⟩
  · unfold TrivyResults.Check
    induction t with
    | nil => rfl
    | cons r rest ih => simp [Check.loop, ih, Check_count_zero]
  · intro pre post result prior
    unfold TrivyResults.Check
    rw [Check_loop_append]
    simp [Check.loop, Check_count_zero]

/-! ## The enumerator: claim C2 -/

theorem getAllGroupProjects_loop_repeats (s : scan) (E : Env) (options : ListGroupProjectsOptions)
    (projs : List Project) (resp : Response)
    (hpage : E.ListGroupProjects s.ID options = .ok (projs, resp))
    (hmore : resp.CurrentPage < resp.TotalPages)
    (fuel : Nat) (allProjs : List Project) (tr : List Call) :
    getAllGroupProjects.loop s E options fuel allProjs tr
      = (.outOfFuel, tr ++ List.replicate fuel (Call.listGroupProjects s.ID options)) := by
  induction fuel generalizing allProjs tr with
  | zero => simp [getAllGroupProjects.loop]
  | succ n ih =>
    unfold getAllGroupProjects.loop
    simp only [hpage]
    rw [if_neg (by omega), ih]
    simp [List.replicate_succ]

/-- C2, the code at the failing input. For a listing of three pages (a request
for page `k` answered with current page `k` and total pages 3),
`getAllGroupProjects` does not return within any number of iterations: after
`fuel` iterations it has issued `fuel` requests, every one of them for page 1. -/
theorem getAllGroupProjects_three_pages_never_returns (s : scan) (p1 p2 p3 : List Project)
    (fuel : Nat) :
    getAllGroupProjects s (pagedEnv [p1, p2, p3]) fuel
      = (.outOfFuel, List.replicate fuel (firstPageRequest s)) := by
  unfold getAllGroupProjects
  rw [getAllGroupProjects_loop_repeats s (pagedEnv [p1, p2, p3]) ⟨100, 1, false, true⟩
    p1 ⟨200, 1, 3⟩ rfl (by decide)]
  simp [firstPageRequest]

/-! ## The orchestrator: claims C3 and C4 -/

/-- C3, the code at the failing input. With a non-empty group id, no name
pattern and a successful listing of one project, an ignore-file fetch that fails
without an HTTP response makes `ScanGroup` panic with a nil dereference, after
the job listing, the artifact download and the ignore-file request for that
project; no aggregate is returned. -/
theorem ScanGroup_panics_without_response (fuel : Nat) :
    ScanGroup exampleScan ignoreFetchNoResponseEnv (fuel + 1)
      = (.panicked .nilPointerDereference,
          [firstPageRequest exampleScan,
           .listProjectJobs 1 false,
           .downloadArtifactsFile 1 "main" "trivy",
           .getRawFile 1 ".trivyignore" "main"]) := by
  rfl

theorem getAllGroupProjects_loop_trace (s : scan) (E : Env) (options : ListGroupProjectsOptions)
    (fuel : Nat) (allProjs : List Project) (tr : List Call) :
    ∃ n, (getAllGroupProjects.loop s E options fuel allProjs tr).2
      = tr ++ List.replicate n (Call.listGroupProjects s.ID options) := by
  induction fuel generalizing allProjs tr with
  | zero => exact ⟨0, by simp [getAllGroupProjects.loop]⟩
  | succ n ih =>
    unfold getAllGroupProjects.loop
    cases hpage : E.ListGroupProjects s.ID options with
    | error err => exact ⟨1, by simp⟩
    | ok pr =>
      obtain ⟨projs, resp⟩ := pr
      by_cases hlast : resp.CurrentPage ≥ resp.TotalPages
      · exact ⟨1, by simp [hlast]⟩
      · obtain ⟨m, hm⟩ := ih (allProjs ++ projs) (tr ++ [Call.listGroupProjects s.ID options])
        refine ⟨m + 1, ?_⟩
        simp only [hlast, if_false, hm]
        simp [List.replicate_succ]

theorem getAllGroupProjects_trace (s : scan) (E : Env) (fuel : Nat) :
    ∀ c ∈ (getAllGroupProjects s E fuel).2, c = firstPageRequest s := by
  obtain ⟨n, hn⟩ := getAllGroupProjects_loop_trace s E ⟨100, 1, false, true⟩ fuel [] []
  unfold getAllGroupProjects
  rw [hn]
  intro c hc
  simp only [List.nil_append] at hc
  exact List.eq_of_mem_replicate hc

theorem ScanGroup_of_listing_ok (s : scan) (E : Env) (fuel : Nat) (projs : List Project)
    (tr : List Call) (hid : s.ID ≠ "")
    (hlist : getAllGroupProjects s E fuel = (.returned (projs, none), tr)) :
    ScanGroup s E fuel =
      if s.Filter ≠ "" then
        match E.regexpCompile s.Filter with
        | none => (.panicked (.regexpMustCompile s.Filter), tr)
        | some re => ScanGroup.loop s E (some re) projs [] tr
      else ScanGroup.loop s E none projs [] tr := by
  unfold ScanGroup
  rw [if_neg hid, hlist]

theorem ScanGroup_of_listing_error (s : scan) (E : Env) (fuel : Nat) (projs : List Project)
    (err : Error) (tr : List Call) (hid : s.ID ≠ "")
    (hlist : getAllGroupProjects s E fuel = (.returned (projs, some err), tr)) :
    ScanGroup s E fuel = (.returned (.error err), tr) := by
  unfold ScanGroup
  rw [if_neg hid, hlist]

/-- C4, counterexample. With group id `group`, the pattern `(`, which does not
compile, and a successful listing, `ScanGroup` panics in `regexp.MustCompile`
after the listing request: it returns no error value to its caller. -/
theorem ScanGroup_uncompilable_pattern_panics :
    ScanGroup { exampleScan with Filter := "(" } emptyEnv 1
        = (.panicked (.regexpMustCompile "("),
            [firstPageRequest { exampleScan with Filter := "(" }])
    ∧ ¬ ∃ err, (ScanGroup { exampleScan with Filter := "(" } emptyEnv 1).1
        = .returned (.error err) := by
  have h : ScanGroup { exampleScan with Filter := "(" } emptyEnv 1
      = (.panicked (.regexpMustCompile "("),
          [firstPageRequest { exampleScan with Filter := "(" }]) := by rfl
  refine ⟨h, ?_⟩
  rintro ⟨err, herr⟩
  rw [h] at herr
  cases herr

/-- C4, amended. For a non-empty group id and a non-empty name pattern that
does not compile, `ScanGroup` never returns an aggregate and the only remote
calls it makes are project-listing requests (no job listing, artifact download
or ignore-file fetch); when the listing succeeds it aborts with the panic of
`regexp.MustCompile` on the pattern, and when the listing fails it returns the
listing error. -/
theorem ScanGroup_bad_pattern (s : scan) (E : Env) (fuel : Nat)
    (hid : s.ID ≠ "") (hfilter : s.Filter ≠ "") (hbad : E.regexpCompile s.Filter = none) :
    (∀ results, (ScanGroup s E fuel).1 ≠ .returned (.ok results))
    ∧ (∀ c ∈ (ScanGroup s E fuel).2, c = firstPageRequest s)
    ∧ (∀ projs tr, getAllGroupProjects s E fuel = (.returned (projs, none), tr) →
        ScanGroup s E fuel = (.panicked (.regexpMustCompile s.Filter), tr))
    ∧ (∀ projs err tr, getAllGroupProjects s E fuel = (.returned (projs, some err), tr) →
        ScanGroup s E fuel = (.returned (.error err), tr)) := by
  have hok : ∀ projs tr, getAllGroupProjects s E fuel = (.returned (projs, none), tr) →
      ScanGroup s E fuel = (.panicked (.regexpMustCompile s.Filter), tr) := by
    intro projs tr hlist
    rw [ScanGroup_of_listing_ok s E fuel projs tr hid hlist, if_pos hfilter, hbad]
  have htr := getAllGroupProjects_trace s E fuel
  have hshape : (ScanGroup s E fuel).2 = (getAllGroupProjects s E fuel).2
      ∧ ∀ results, (ScanGroup s E fuel).1 ≠ .returned (.ok results) := by
    rcases hl : getAllGroupProjects s E fuel with ⟨out, tr⟩
    cases out with
    | returned v =>
      obtain ⟨projs, oerr⟩ := v
      cases oerr with
      | none =>
        rw [hok projs tr hl]
        exact ⟨rfl, fun results h => by cases h⟩
      | some err =>
        rw [ScanGroup_of_listing_error s E fuel projs err tr hid hl]
        exact ⟨rfl, fun results h => by cases h⟩
    | panicked p =>
      unfold ScanGroup
      rw [if_neg hid, hl]
      exact ⟨rfl, fun results h => by cases h⟩
    | outOfFuel =>
      unfold ScanGroup
      rw [if_neg hid, hl]
      exact ⟨rfl, fun results h => by cases h⟩
  refine ⟨hshape.2, ?_, hok, ?_⟩
  · rw [hshape.1]
    exact htr
  · intro projs err tr hlist
    exact ScanGroup_of_listing_error s E fuel projs err tr hid hlist

/-- C4, amended, at the pattern `(` over a remote with an empty listing. -/
theorem ScanGroup_bad_pattern_witness :
    (∀ results, (ScanGroup { exampleScan with Filter := "(" } emptyEnv 1).1
        ≠ .returned (.ok results))
    ∧ (∀ c ∈ (ScanGroup { exampleScan with Filter := "(" } emptyEnv 1).2,
        c = firstPageRequest { exampleScan with Filter := "(" })
    ∧ (∀ projs tr, getAllGroupProjects { exampleScan with Filter := "(" } emptyEnv 1
          = (.returned (projs, none), tr) →
        ScanGroup { exampleScan with Filter := "(" } emptyEnv 1
          = (.panicked (.regexpMustCompile "("), tr))
    ∧ (∀ projs err tr, getAllGroupProjects { exampleScan with Filter := "(" } emptyEnv 1
          = (.returned (projs, some err), tr) →
        ScanGroup { exampleScan with Filter := "(" } emptyEnv 1
          = (.returned (.error err), tr)) :=
  ScanGroup_bad_pattern { exampleScan with Filter := "(" } emptyEnv 1
    (by decide) (by decide) rfl

/-! ## Lemmas on the project loop of `ScanGroup` -/

theorem getTrivyIgnore_not_empty (s : scan) (E : Env) (pid : Int) (ref : String)
    (ignore : Slice String) (err : Option Error)
    (h : (getTrivyIgnore s E pid ref).1 = .returned (ignore, err)) : ignore ≠ some [] := by
  unfold getTrivyIgnore at h
  cases hf : E.GetRawFile pid ".trivyignore" ref with
  | failed res e =>
    rw [hf] at h
    cases res with
    | none => cases h
    | some r =>
      by_cases h404 : r.StatusCode = 404
      · simp [h404] at h
        simp [← h.1]
      · simp [h404] at h
        simp [← h.1]
  | ok bt =>
    rw [hf] at h
    simp only [Exec.returned.injEq, Prod.mk.injEq] at h
    rw [← h.1, getTrivyIgnore_loop_none]
    by_cases hnil : (stringsSplitNewline bt).filter (fun x => !hasPrefixHash x) = []
    · simp [hnil]
    · simp only [hnil, if_false]
      intro hc
      injection hc with hc
      exact hnil hc

theorem getTrivyIgnore_trace (s : scan) (E : Env) (pid : Int) (ref : String) :
    (getTrivyIgnore s E pid ref).2 = [Call.getRawFile pid ".trivyignore" ref] := by
  unfold getTrivyIgnore
  cases E.GetRawFile pid ".trivyignore" ref with
  | failed res e =>
    cases res with
    | none => rfl
    | some r =>
      by_cases h404 : r.StatusCode = 404
      · simp [h404]
      · simp [h404]
  | ok bt => rfl

theorem getTrivyIgnore_returns (s : scan) (E : Env) (pid : Int) (ref : String)
    (h : ∀ err, E.GetRawFile pid ".trivyignore" ref ≠ .failed none err) :
    ∃ v, (getTrivyIgnore s E pid ref).1 = .returned v := by
  unfold getTrivyIgnore
  cases hf : E.GetRawFile pid ".trivyignore" ref with
  | failed res e =>
    cases res with
    | none => exact absurd hf (h e)
    | some r =>
      by_cases h404 : r.StatusCode = 404
      · simp [h404]
      · simp [h404]
  | ok bt => exact ⟨_, rfl⟩

theorem getTrivyResult_trace (s : scan) (E : Env) (pid : Int) (ref : String) :
    ∀ c ∈ (getTrivyResult s E pid ref).2,
      c = .listProjectJobs pid false ∨ c = .downloadArtifactsFile pid ref s.JobName := by
  unfold getTrivyResult
  cases E.ListProjectJobs pid false with
  | error err => simp
  | ok jobs =>
    simp only
    cases E.DownloadArtifactsFile pid ref s.JobName with
    | failed res err =>
      cases res with
      | none => simp
      | some r =>
        by_cases h404 : r.StatusCode = 404
        · simp [h404]
        · simp [h404]
    | ok rdr =>
      simp only
      cases unzipFromReader s E rdr with
      | error err => simp
      | ok bt =>
        simp only
        cases E.jsonUnmarshal bt with
        | error err => simp
        | ok jsonResult => simp

theorem ScanGroup_project_trace (s : scan) (E : Env) (proj : Project) :
    ∀ c ∈ (ScanGroup.project s E proj).2, c ∈ perProjectCalls s proj := by
  intro c hc
  have h2 : (ScanGroup.project s E proj).2
      = (getTrivyResult s E proj.ID proj.DefaultBranch).2
        ++ (getTrivyIgnore s E proj.ID proj.DefaultBranch).2 := by
    unfold ScanGroup.project
    cases hi : (getTrivyIgnore s E proj.ID proj.DefaultBranch).1 with
    | returned v => simp only [hi]
    | panicked p => simp only [hi]
    | outOfFuel => simp only [hi]
  rw [h2, getTrivyIgnore_trace, List.mem_append] at hc
  rcases hc with hc | hc
  · rcases getTrivyResult_trace s E _ _ c hc with h | h
    · simp [perProjectCalls, h]
    · simp [perProjectCalls, h]
  · simp only [List.mem_singleton] at hc
    simp [perProjectCalls, hc]

theorem ScanGroup_project_invariant (s : scan) (E : Env) (proj : Project) (r : trivy)
    (h : (ScanGroup.project s E proj).1 = .returned r) :
    r.Ignore ≠ some [] ∧ r.Vulnerabilities = vulnerabilityCount r.ReportResult
      ∧ r.ProjName = proj.Name := by
  unfold ScanGroup.project at h
  cases hi : (getTrivyIgnore s E proj.ID proj.DefaultBranch).1 with
  | returned v =>
    obtain ⟨ignore, err⟩ := v
    simp only [hi, Exec.returned.injEq] at h
    subst h
    exact ⟨getTrivyIgnore_not_empty s E _ _ ignore err hi, Check_count_zero _, rfl⟩
  | panicked p => simp [hi] at h
  | outOfFuel => simp [hi] at h

theorem ScanGroup_project_returns (s : scan) (E : Env) (proj : Project)
    (h : ∀ err, E.GetRawFile proj.ID ".trivyignore" proj.DefaultBranch ≠ .failed none err) :
    ∃ r, (ScanGroup.project s E proj).1 = .returned r := by
  obtain ⟨v, hv⟩ := getTrivyIgnore_returns s E proj.ID proj.DefaultBranch h
  unfold ScanGroup.project
  simp only [hv]
  exact ⟨_, rfl⟩

theorem keeps_eq_specIncluded (r : trivy) (hi : r.Ignore ≠ some [])
    (hv : r.Vulnerabilities = vulnerabilityCount r.ReportResult) :
    ScanGroup.keeps r = specIncluded r := by
  unfold ScanGroup.keeps specIncluded
  rw [hv]
  congr 1
  cases hig : r.Ignore with
  | none => simp [Slice.len]
  | some l =>
    cases l with
    | nil => exact absurd hig hi
    | cons a t => simp [Slice.len]

theorem passes_returned (s : scan) (re : Option Regexp) (proj : Project)
    (hre : s.Filter = "" ∨ re.isSome = true) :
    ScanGroup.passes s re proj = .returned (passesFilter s re proj) := by
  unfold passesFilter ScanGroup.passes
  by_cases hf : s.Filter = ""
  · simp [hf]
  · rcases hre with h | h
    · exact absurd h hf
    · cases re with
      | none => simp at h
      | some r =>
        simp only [hf, if_false]
        by_cases hm : Slice.len (r.FindAllString proj.NameWithNamespace) > 0
        · simp [hm]
        · simp [hm]

theorem ScanGroup_loop_cons (s : scan) (E : Env) (re : Option Regexp)
    (hre : s.Filter = "" ∨ re.isSome = true) (proj : Project) (rest : List Project)
    (results : TrivyResults) (tr : List Call) :
    ScanGroup.loop s E re (proj :: rest) results tr =
      if passesFilter s re proj = true then
        match ScanGroup.project s E proj with
        | (.returned projResult, tr1) =>
          if ScanGroup.keeps projResult then
            ScanGroup.loop s E re rest (results ++ [projResult]) (tr ++ tr1)
          else ScanGroup.loop s E re rest results (tr ++ tr1)
        | (.panicked p, tr1) => (.panicked p, tr ++ tr1)
        | (.outOfFuel, tr1) => (.outOfFuel, tr ++ tr1)
      else ScanGroup.loop s E re rest results tr := by
  rw [ScanGroup.loop, passes_returned s re proj hre]
  cases passesFilter s re proj <;> simp

theorem projectResult_eq_some (s : scan) (E : Env) (proj : Project) (r : trivy)
    (tr1 : List Call) (h : ScanGroup.project s E proj = (.returned r, tr1)) :
    projectResult s E proj = some r := by
  unfold projectResult
  rw [h]

theorem ScanGroup_loop_results (s : scan) (E : Env) (re : Option Regexp)
    (hre : s.Filter = "" ∨ re.isSome = true) (projs : List Project) :
    ∀ (results : TrivyResults) (tr : List Call) (out : TrivyResults) (tr2 : List Call),
      ScanGroup.loop s E re projs results tr = (.returned (.ok out), tr2) →
      out = results ++ (((projs.filter (passesFilter s re)).filterMap
              (projectResult s E)).filter specIncluded)
        ∧ ∀ p ∈ projs, passesFilter s re p = true →
            ∃ r, (ScanGroup.project s E p).1 = .returned r := by
  induction projs with
  | nil =>
    intro results tr out tr2 h
    simp only [ScanGroup.loop, Prod.mk.injEq, Exec.returned.injEq, Except.ok.injEq] at h
    simp [h.1]
  | cons proj rest ih =>
    intro results tr out tr2 h
    rw [ScanGroup_loop_cons s E re hre] at h
    by_cases hpass : passesFilter s re proj = true
    · rw [if_pos hpass] at h
      rcases hproj : ScanGroup.project s E proj with ⟨o, tr1⟩
      rw [hproj] at h
      cases o with
      | returned r =>
        have hinv := ScanGroup_project_invariant s E proj r (by rw [hproj])
        have hkeep := keeps_eq_specIncluded r hinv.1 hinv.2.1
        have hpr := projectResult_eq_some s E proj r tr1 hproj
        simp only at h
        by_cases hk : ScanGroup.keeps r = true
        · rw [if_pos hk] at h
          obtain ⟨h1, h2⟩ := ih _ _ _ _ h
          have hsp : specIncluded r = true := by rw [← hkeep]; exact hk
          refine ⟨?_, ?_⟩
          · rw [h1]
            simp [List.filter_cons, hpass, hpr, hsp]
          · intro p hp hpp
            rcases List.mem_cons.mp hp with rfl | hp
            · exact ⟨r, by rw [hproj]⟩
            · exact h2 p hp hpp
        · rw [if_neg hk] at h
          obtain ⟨h1, h2⟩ := ih _ _ _ _ h
          have hsp : specIncluded r = false := by
            rw [← hkeep]
            simpa using hk
          refine ⟨?_, ?_⟩
          · rw [h1]
            simp [List.filter_cons, hpass, hpr, hsp]
          · intro p hp hpp
            rcases List.mem_cons.mp hp with rfl | hp
            · exact ⟨r, by rw [hproj]⟩
            · exact h2 p hp hpp
      | panicked q => simp at h
      | outOfFuel => simp at h
    · rw [if_neg hpass] at h
      obtain ⟨h1, h2⟩ := ih _ _ _ _ h
      refine ⟨?_, ?_⟩
      · rw [h1]
        simp [List.filter_cons, hpass]
      · intro p hp hpp
        rcases List.mem_cons.mp hp with rfl | hp
        · exact absurd hpp hpass
        · exact h2 p hp hpp

theorem ScanGroup_loop_returns (s : scan) (E : Env) (re : Option Regexp)
    (hre : s.Filter = "" ∨ re.isSome = true) (projs : List Project) :
    ∀ (results : TrivyResults) (tr : List Call),
      (∀ p ∈ projs, passesFilter s re p = true →
        ∃ r, (ScanGroup.project s E p).1 = .returned r) →
      ∃ out tr2, ScanGroup.loop s E re projs results tr = (.returned (.ok out), tr2) := by
  induction projs with
  | nil =>
    intro results tr _
    exact ⟨results, tr, rfl⟩
  | cons proj rest ih =>
    intro results tr hall
    have hrest : ∀ p ∈ rest, passesFilter s re p = true →
        ∃ r, (ScanGroup.project s E p).1 = .returned r :=
      fun p hp hpp => hall p (List.mem_cons_of_mem _ hp) hpp
    rw [ScanGroup_loop_cons s E re hre]
    by_cases hpass : passesFilter s re proj = true
    · rw [if_pos hpass]
      obtain ⟨r, hr⟩ := hall proj (List.mem_cons_self _ _) hpass
      rcases hproj : ScanGroup.project s E proj with ⟨o, tr1⟩
      rw [hproj] at hr
      simp only at hr
      subst hr
      simp only
      by_cases hk : ScanGroup.keeps r = true
      · rw [if_pos hk]
        exact ih _ _ hrest
      · rw [if_neg hk]
        exact ih _ _ hrest
    · rw [if_neg hpass]
      exact ih _ _ hrest

theorem ScanGroup_loop_trace (s : scan) (E : Env) (re : Option Regexp)
    (hre : s.Filter = "" ∨ re.isSome = true) (projs : List Project) :
    ∀ (results : TrivyResults) (tr : List Call),
      ∀ c ∈ (ScanGroup.loop s E re projs results tr).2,
        c ∈ tr ∨ ∃ p ∈ projs, passesFilter s re p = true ∧ c ∈ perProjectCalls s p := by
  induction projs with
  | nil =>
    intro results tr c hc
    exact Or.inl hc
  | cons proj rest ih =>
    intro results tr c hc
    rw [ScanGroup_loop_cons s E re hre] at hc
    have lift : ∀ (tr1 : List Call), (∀ d ∈ tr1, d ∈ perProjectCalls s proj) →
        passesFilter s re proj = true →
        (c ∈ tr ++ tr1 ∨ ∃ p ∈ rest, passesFilter s re p = true ∧ c ∈ perProjectCalls s p) →
        c ∈ tr ∨ ∃ p ∈ proj :: rest, passesFilter s re p = true ∧ c ∈ perProjectCalls s p := by
      intro tr1 h1 hpass h
      rcases h with h | ⟨p, hp, hpp, hcp⟩
      · rcases List.mem_append.mp h with h | h
        · exact Or.inl h
        · exact Or.inr ⟨proj, List.mem_cons_self _ _, hpass, h1 c h⟩
      · exact Or.inr ⟨p, List.mem_cons_of_mem _ hp, hpp, hcp⟩
    by_cases hpass : passesFilter s re proj = true
    · rw [if_pos hpass] at hc
      have htr := ScanGroup_project_trace s E proj
      rcases hproj : ScanGroup.project s E proj with ⟨o, tr1⟩
      rw [hproj] at hc htr
      simp only at htr
      cases o with
      | returned r =>
        simp only at hc
        by_cases hk : ScanGroup.keeps r = true
        · rw [if_pos hk] at hc
          exact lift tr1 htr hpass (ih _ _ c hc)
        · rw [if_neg hk] at hc
          exact lift tr1 htr hpass (ih _ _ c hc)
      | panicked q => exact lift tr1 htr hpass (Or.inl hc)
      | outOfFuel => exact lift tr1 htr hpass (Or.inl hc)
    · rw [if_neg hpass] at hc
      rcases ih _ _ c hc with h | ⟨p, hp, hpp, hcp⟩
      · exact Or.inl h
      · exact Or.inr ⟨p, List.mem_cons_of_mem _ hp, hpp, hcp⟩

theorem ScanGroup_loop_frame (s : scan) (E : Env) (re : Option Regexp)
    (hre : s.Filter = "" ∨ re.isSome = true) (projs : List Project) :
    ∀ (results : TrivyResults) (tr : List Call),
      ScanGroup.loop s E re projs results tr
        = ScanGroup.loop s E re (projs.filter (passesFilter s re)) results tr := by
  induction projs with
  | nil => intro results tr; rfl
  | cons proj rest ih =>
    intro results tr
    by_cases hpass : passesFilter s re proj = true
    · rw [List.filter_cons_of_pos hpass, ScanGroup_loop_cons s E re hre,
        ScanGroup_loop_cons s E re hre, if_pos hpass, if_pos hpass]
      rcases hproj : ScanGroup.project s E proj with ⟨o, tr1⟩
      cases o with
      | returned r =>
        simp only
        by_cases hk : ScanGroup.keeps r = true
        · rw [if_pos hk, if_pos hk, ih]
        · rw [if_neg hk, if_neg hk, ih]
      | panicked q => rfl
      | outOfFuel => rfl
    · rw [List.filter_cons_of_neg hpass, ScanGroup_loop_cons s E re hre, if_neg hpass]
      exact ih _ _

theorem ScanGroup_eq_loop (s : scan) (E : Env) (fuel : Nat) (projs : List Project)
    (tr : List Call) (hid : s.ID ≠ "")
    (hlist : getAllGroupProjects s E fuel = (.returned (projs, none), tr))
    (hpat : s.Filter = "" ∨ (E.regexpCompile s.Filter).isSome = true) :
    ScanGroup s E fuel = ScanGroup.loop s E (compiledFilter s E) projs [] tr
      ∧ (s.Filter = "" ∨ (compiledFilter s E).isSome = true) := by
  rw [ScanGroup_of_listing_ok s E fuel projs tr hid hlist]
  unfold compiledFilter
  by_cases hf : s.Filter = ""
  · simp [hf]
  · rcases hpat with h | h
    · exact absurd h hf
    · cases hc : E.regexpCompile s.Filter with
      | none => simp [hc] at h
      | some re => simp [hf]

theorem ScanGroup_no_projects (s : scan) (E : Env) (fuel : Nat) (tr : List Call)
    (hid : s.ID ≠ "")
    (hlist : getAllGroupProjects s E fuel = (.returned ([], none), tr))
    (hpat : s.Filter = "" ∨ (E.regexpCompile s.Filter).isSome = true) :
    ScanGroup s E fuel = (.returned (.ok []), tr) := by
  rw [(ScanGroup_eq_loop s E fuel [] tr hid hlist hpat).1]
  rfl

theorem projectResult_some (s : scan) (E : Env) (proj : Project) (r : trivy)
    (h : projectResult s E proj = some r) : (ScanGroup.project s E proj).1 = .returned r := by
  unfold projectResult at h
  cases ho : (ScanGroup.project s E proj).1 with
  | returned v =>
    rw [ho] at h
    simp only [Option.some.injEq] at h
    rw [h]
  | panicked q => rw [ho] at h; simp at h
  | outOfFuel => rw [ho] at h; simp at h

theorem processedResults_invariant (s : scan) (E : Env) (projs : List Project) (r : trivy)
    (h : r ∈ processedResults s E projs) :
    ∃ p ∈ projs, passesFilter s (compiledFilter s E) p = true
      ∧ (ScanGroup.project s E p).1 = .returned r := by
  unfold processedResults at h
  obtain ⟨p, hp, hpr⟩ := List.mem_filterMap.mp h
  obtain ⟨hmem, hpass⟩ := List.mem_filter.mp hp
  exact ⟨p, hmem, hpass, projectResult_some s E p r hpr⟩

theorem specIncluded_iff (r : trivy) (hv : r.Vulnerabilities = vulnerabilityCount r.ReportResult) :
    specIncluded r = true
      ↔ 0 < Slice.len r.Ignore ∨ (r.ReportResult ≠ none ∧ 0 < r.Vulnerabilities) := by
  unfold specIncluded
  rw [hv]
  cases r.ReportResult <;> simp

/-! ## The orchestrator: claims C1 and C5 -/

/-- C1. Let the group id be non-empty, the listing succeed with `projs` and the
name pattern be empty or compile. Whenever `ScanGroup` returns an aggregate, the
aggregate is the list, in listing order, of the results of the projects passing
the name filter that satisfy: ignore list non-empty, or report present and
vulnerability count positive. Each such project has a result, whose count is the
sum of the vulnerability records over the entries of its report; the result is
in the aggregate if and only if the rule holds; a result with neither report nor
ignore list is not in the aggregate; a result with a non-empty ignore list is.
An aggregate is returned whenever no ignore-file fetch of a passing project
fails without an HTTP response. -/
theorem ScanGroup_inclusion (s : scan) (E : Env) (fuel : Nat) (projs : List Project)
    (tr : List Call) (hid : s.ID ≠ "")
    (hlist : getAllGroupProjects s E fuel = (.returned (projs, none), tr))
    (hpat : s.Filter = "" ∨ (E.regexpCompile s.Filter).isSome = true) :
    (∀ results tr2, ScanGroup s E fuel = (.returned (.ok results), tr2) →
      results = (processedResults s E projs).filter specIncluded
      ∧ (∀ p ∈ projs, passesFilter s (compiledFilter s E) p = true →
          ∃ r, (ScanGroup.project s E p).1 = .returned r ∧ r ∈ processedResults s E projs)
      ∧ (∀ r ∈ processedResults s E projs,
          (r ∈ results
            ↔ 0 < Slice.len r.Ignore ∨ (r.ReportResult ≠ none ∧ 0 < r.Vulnerabilities))
          ∧ (Slice.len r.Ignore = 0 → r.ReportResult = none → r ∉ results)
          ∧ (0 < Slice.len r.Ignore → r ∈ results)))
    ∧ (∀ r ∈ processedResults s E projs,
        r.Vulnerabilities = vulnerabilityCount r.ReportResult
        ∧ (r.Ignore ≠ none ↔ 0 < Slice.len r.Ignore))
    ∧ ((∀ p ∈ projs, passesFilter s (compiledFilter s E) p = true →
          ∀ err, E.GetRawFile p.ID ".trivyignore" p.DefaultBranch ≠ .failed none err) →
        ∃ tr2, ScanGroup s E fuel
          = (.returned (.ok ((processedResults s E projs).filter specIncluded)), tr2)) := by
  obtain ⟨heq, hre⟩ := ScanGroup_eq_loop s E fuel projs tr hid hlist hpat
  have hinv : ∀ r ∈ processedResults s E projs,
      r.Vulnerabilities = vulnerabilityCount r.ReportResult
        ∧ (r.Ignore ≠ none ↔ 0 < Slice.len r.Ignore) := by
    intro r hr
    obtain ⟨p, _, _, hp⟩ := processedResults_invariant s E projs r hr
    obtain ⟨h1, h2, _⟩ := ScanGroup_project_invariant s E p r hp
    refine ⟨h2, ?_⟩
    cases hig : r.Ignore with
    | none => simp [Slice.len]
    | some l =>
      cases l with
      | nil => exact absurd hig h1
      | cons a t => simp [Slice.len]
  have hres : ∀ results tr2, ScanGroup s E fuel = (.returned (.ok results), tr2) →
      results = (processedResults s E projs).filter specIncluded
        ∧ ∀ p ∈ projs, passesFilter s (compiledFilter s E) p = true →
            ∃ r, (ScanGroup.project s E p).1 = .returned r := by
    intro results tr2 h
    rw [heq] at h
    obtain ⟨h1, h2⟩ := ScanGroup_loop_results s E _ hre projs [] tr results tr2 h
    exact ⟨by simpa [processedResults] using h1, h2⟩
  refine ⟨?_, hinv, ?_⟩
  · intro results tr2 h
    obtain ⟨h1, h2⟩ := hres results tr2 h
    refine ⟨h1, ?_, ?_⟩
    · intro p hp hpass
      obtain ⟨r, hr⟩ := h2 p hp hpass
      refine ⟨r, hr, ?_⟩
      unfold processedResults
      refine List.mem_filterMap.mpr ⟨p, List.mem_filter.mpr ⟨hp, hpass⟩, ?_⟩
      unfold projectResult
      rw [hr]
    · intro r hr
      have hiff : r ∈ results
          ↔ 0 < Slice.len r.Ignore ∨ (r.ReportResult ≠ none ∧ 0 < r.Vulnerabilities) := by
        rw [h1, List.mem_filter, specIncluded_iff r (hinv r hr).1]
        exact ⟨fun h => h.2, fun h => ⟨hr, h⟩⟩
      refine ⟨hiff, ?_, ?_⟩
      · intro h0 hnone hmem
        rcases hiff.mp hmem with h | h
        · omega
        · exact h.1 hnone
      · intro hpos
        exact hiff.mpr (Or.inl hpos)
  · intro hresp
    have hall : ∀ p ∈ projs, passesFilter s (compiledFilter s E) p = true →
        ∃ r, (ScanGroup.project s E p).1 = .returned r :=
      fun p hp hpass => ScanGroup_project_returns s E p (hresp p hp hpass)
    obtain ⟨out, tr2, hout⟩ := ScanGroup_loop_returns s E _ hre projs [] tr hall
    rw [← heq] at hout
    refine ⟨tr2, ?_⟩
    rw [hout, (hres out tr2 hout).1]

/-- C1 at `inclusionEnv`: of the four projects, the one with two findings and
the one with only an ignore file are in the aggregate; the one with a clean
report and the one with nothing are not. -/
theorem ScanGroup_inclusion_witness :
    ((∀ results tr2, ScanGroup exampleScan inclusionEnv 1 = (.returned (.ok results), tr2) →
      results = (processedResults exampleScan inclusionEnv inclusionProjects).filter specIncluded
      ∧ (∀ p ∈ inclusionProjects,
          passesFilter exampleScan (compiledFilter exampleScan inclusionEnv) p = true →
          ∃ r, (ScanGroup.project exampleScan inclusionEnv p).1 = .returned r
            ∧ r ∈ processedResults exampleScan inclusionEnv inclusionProjects)
      ∧ (∀ r ∈ processedResults exampleScan inclusionEnv inclusionProjects,
          (r ∈ results
            ↔ 0 < Slice.len r.Ignore ∨ (r.ReportResult ≠ none ∧ 0 < r.Vulnerabilities))
          ∧ (Slice.len r.Ignore = 0 → r.ReportResult = none → r ∉ results)
          ∧ (0 < Slice.len r.Ignore → r ∈ results)))
    ∧ (∀ r ∈ processedResults exampleScan inclusionEnv inclusionProjects,
        r.Vulnerabilities = vulnerabilityCount r.ReportResult
        ∧ (r.Ignore ≠ none ↔ 0 < Slice.len r.Ignore))
    ∧ ((∀ p ∈ inclusionProjects,
          passesFilter exampleScan (compiledFilter exampleScan inclusionEnv) p = true →
          ∀ err, inclusionEnv.GetRawFile p.ID ".trivyignore" p.DefaultBranch
            ≠ .failed none err) →
        ∃ tr2, ScanGroup exampleScan inclusionEnv 1
          = (.returned (.ok ((processedResults exampleScan inclusionEnv
              inclusionProjects).filter specIncluded)), tr2)))
    ∧ (ScanGroup exampleScan inclusionEnv 1).1
        = .returned (.ok
            [⟨"flagged", "success", 2, none,
                some [⟨"alpine", some [⟨"CVE-2020-1"⟩, ⟨"CVE-2020-2"⟩]⟩]⟩,
             ⟨"ignoring", "success", 0, some ["CVE-2019-9", ""], none⟩]) :=
  ⟨ScanGroup_inclusion exampleScan inclusionEnv 1 inclusionProjects
      [firstPageRequest exampleScan] (by decide) rfl (Or.inl rfl), rfl⟩

theorem passesFilter_eq_nameMatches (s : scan) (re : Regexp) (hfilter : s.Filter ≠ "") :
    passesFilter s (some re) = nameMatches re := by
  funext proj
  unfold passesFilter nameMatches ScanGroup.passes
  simp only [hfilter, if_false]
  by_cases hm : Slice.len (re.FindAllString proj.NameWithNamespace) > 0
  · simp [hm]
  · simp [hm]

theorem perProjectCalls_pid (s : scan) (proj : Project) (c : Call)
    (h : c ∈ perProjectCalls s proj) : Call.pid c = some proj.ID := by
  simp only [perProjectCalls, List.mem_cons, List.mem_singleton, List.not_mem_nil,
    or_false] at h
  rcases h with h | h | h <;> simp [h, Call.pid]

/-- C5. Let the group id be non-empty, the name pattern be non-empty and
compile to `re`, and the listing succeed with `projs`. Then the run of
`ScanGroup` is the run of its project loop over the projects whose namespaced
display name matches the pattern only; every remote call made is a listing
request or one of the job-listing, artifact-download and ignore-file calls of a
matching project; no call carries the id of a project that does not match
(ids being those of no matching project); and every result in a returned
aggregate is the result of a matching project. -/
theorem ScanGroup_skips_unmatched (s : scan) (E : Env) (fuel : Nat) (projs : List Project)
    (tr : List Call) (re : Regexp) (hid : s.ID ≠ "") (hfilter : s.Filter ≠ "")
    (hre : E.regexpCompile s.Filter = some re)
    (hlist : getAllGroupProjects s E fuel = (.returned (projs, none), tr)) :
    ScanGroup s E fuel = ScanGroup.loop s E (some re) (projs.filter (nameMatches re)) [] tr
    ∧ (∀ c ∈ (ScanGroup s E fuel).2,
        c = firstPageRequest s
          ∨ ∃ p ∈ projs, nameMatches re p = true ∧ c ∈ perProjectCalls s p)
    ∧ (∀ q ∈ projs, nameMatches re q = false →
        (∀ p ∈ projs, nameMatches re p = true → p.ID ≠ q.ID) →
        ∀ c ∈ (ScanGroup s E fuel).2, Call.pid c ≠ some q.ID)
    ∧ (∀ results, (ScanGroup s E fuel).1 = .returned (.ok results) →
        ∀ r ∈ results, ∃ p ∈ projs, nameMatches re p = true
          ∧ (ScanGroup.project s E p).1 = .returned r ∧ r.ProjName = p.Name) := by
  have hsome : s.Filter = "" ∨ (some re).isSome = true := Or.inr rfl
  have hpf := passesFilter_eq_nameMatches s re hfilter
  have heq : ScanGroup s E fuel = ScanGroup.loop s E (some re) projs [] tr := by
    rw [ScanGroup_of_listing_ok s E fuel projs tr hid hlist, if_pos hfilter, hre]
  have hcf : compiledFilter s E = some re := by
    unfold compiledFilter
    rw [if_pos hfilter, hre]
  have hcalls : ∀ c ∈ (ScanGroup s E fuel).2,
      c = firstPageRequest s
        ∨ ∃ p ∈ projs, nameMatches re p = true ∧ c ∈ perProjectCalls s p := by
    intro c hc
    rw [heq] at hc
    rcases ScanGroup_loop_trace s E (some re) hsome projs [] tr c hc with h | ⟨p, hp, hpp, hcp⟩
    · left
      have := getAllGroupProjects_trace s E fuel c
      rw [hlist] at this
      exact this h
    · right
      rw [hpf] at hpp
      exact ⟨p, hp, hpp, hcp⟩
  refine ⟨?_, hcalls, ?_, ?_⟩
  · rw [heq, ScanGroup_loop_frame s E (some re) hsome projs, hpf]
  · intro q _ _ huniq c hc hpid
    rcases hcalls c hc with h | ⟨p, hp, hpp, hcp⟩
    · rw [h] at hpid
      simp [firstPageRequest, Call.pid] at hpid
    · rw [perProjectCalls_pid s p c hcp] at hpid
      exact huniq p hp hpp (by simpa using hpid)
  · intro results hret r hr
    rcases hs : ScanGroup s E fuel with ⟨o, tr2⟩
    rw [hs] at hret
    simp only at hret
    subst hret
    rw [heq] at hs
    obtain ⟨h1, _⟩ := ScanGroup_loop_results s E (some re) hsome projs [] tr results tr2 hs
    rw [h1, List.nil_append] at hr
    obtain ⟨hr1, _⟩ := List.mem_filter.mp hr
    obtain ⟨p, hp, hpr⟩ := List.mem_filterMap.mp hr1
    obtain ⟨hmem, hpass⟩ := List.mem_filter.mp hp
    rw [hpf] at hpass
    have hproj := projectResult_some s E p r hpr
    exact ⟨p, hmem, hpass, hproj, (ScanGroup_project_invariant s E p r hproj).2.2⟩

/-- C5 at the pattern `^billing-` over the projects `billing-api` and
`core-service`: beside the listing request, the only calls made are the three
calls for `billing-api`, and the aggregate holds `billing-api` only, although
`core-service` has the same ignore file. -/
theorem ScanGroup_skips_unmatched_witness :
    (ScanGroup billingScan billingEnv 1
        = ScanGroup.loop billingScan billingEnv (some billingRegexp)
            (billingProjects.filter (nameMatches billingRegexp)) []
            [firstPageRequest billingScan]
      ∧ (∀ c ∈ (ScanGroup billingScan billingEnv 1).2,
          c = firstPageRequest billingScan
            ∨ ∃ p ∈ billingProjects, nameMatches billingRegexp p = true
                ∧ c ∈ perProjectCalls billingScan p)
      ∧ (∀ q ∈ billingProjects, nameMatches billingRegexp q = false →
          (∀ p ∈ billingProjects, nameMatches billingRegexp p = true → p.ID ≠ q.ID) →
          ∀ c ∈ (ScanGroup billingScan billingEnv 1).2, Call.pid c ≠ some q.ID)
      ∧ (∀ results, (ScanGroup billingScan billingEnv 1).1 = .returned (.ok results) →
          ∀ r ∈ results, ∃ p ∈ billingProjects, nameMatches billingRegexp p = true
            ∧ (ScanGroup.project billingScan billingEnv p).1 = .returned r
            ∧ r.ProjName = p.Name))
    ∧ billingProjects.filter (nameMatches billingRegexp)
        = [⟨1, "billing-api", "billing-api", "main"⟩]
    ∧ ScanGroup billingScan billingEnv 1
        = (.returned (.ok [⟨"billing-api", "", 0, some ["CVE-2019-9"], none⟩]),
            [firstPageRequest billingScan,
             .listProjectJobs 1 false,
             .downloadArtifactsFile 1 "main" "trivy",
             .getRawFile 1 ".trivyignore" "main"]) :=
  ⟨ScanGroup_skips_unmatched billingScan billingEnv 1 billingProjects
      [firstPageRequest billingScan] billingRegexp (by decide) (by decide) rfl rfl,
    rfl, rfl⟩

end TrivyOps
